import Mathlib

/-!
Verification of `tools/csa_to_grizzly_domain.py`.

The tool clones the `GoogleCloudPlatform/security-analytics` repository,
walks every `*.sql` file below `backends/bigquery/sql`, rewrites the
placeholder `[MY_PROJECT_ID].[MY_DATASET_ID]` to a caller-supplied dataset,
and writes, under `grizzly_repo_path/domain_name`, one SQL body and one YAML
descriptor per script plus a `SCOPE.yml` manifest.

The embedding below models Python strings as Lean `String`s (operating on
their `List Char` data), Python `str.lower` as `Char.toLower` mapped over the
characters (they agree on ASCII, and all strings involved here are ASCII),
`str.split(sep)` / `str.split(sep, maxsplit)` and `str.replace` by recursive
functions with Python's semantics, and the filesystem effects of `main` by an
explicit filesystem value threaded through the pipeline in the order the
Python statements execute.
-/

namespace CsaToGrizzly

/-- Python `str.lower` on the character data of a string (ASCII case folding,
as `Char.toLower`; the tool only ever lowercases ASCII identifiers). -/
def pyLowerL (s : List Char) : List Char := s.map Char.toLower

/-- Python `str.lower` at `String` level. -/
def pyLower (s : String) : String := ⟨pyLowerL s.data⟩

/-- Split off the part of `s` before the first occurrence of `sep`, together
with the remainder after it; `none` when `sep` does not occur. -/
def splitFirst (sep : Char) : List Char → Option (List Char × List Char)
  | [] => none
  | c :: cs =>
    if c = sep then some ([], cs)
    else (splitFirst sep cs).map (fun p => (c :: p.1, p.2))

/-- Python `s.split(sep, maxsplit)`: at most `maxsplit` splits are made,
scanning left to right. -/
def pySplitMax (sep : Char) : Nat → List Char → List (List Char)
  | 0, s => [s]
  | n + 1, s =>
    match splitFirst sep s with
    | none => [s]
    | some (a, b) => a :: pySplitMax sep n b

/-- Python `s.split(sep)` (no maxsplit bound; `''.split(sep) = ['']`). -/
def pySplit (sep : Char) : List Char → List (List Char)
  | [] => [[]]
  | c :: cs =>
    let r := pySplit sep cs
    if c = sep then [] :: r
    else
      match r with
      | [] => [[c]]
      | h :: t => (c :: h) :: t

/-- Helper for `replaceAll`, structurally recursive on a fuel bound that
dominates the length of the scanned list (each step consumes at least one
character, so `s.length` fuel always suffices). -/
def replaceAllAux (pat rep : List Char) : Nat → List Char → List Char
  | _, [] => []
  | 0, s => s
  | fuel + 1, c :: cs =>
    if pat.isPrefixOf (c :: cs) then
      rep ++ replaceAllAux pat rep fuel (cs.drop (pat.length - 1))
    else
      c :: replaceAllAux pat rep fuel cs

/-- Python `s.replace(pat, rep)` for a non-empty pattern `pat` (the tool only
replaces the fixed 31-character placeholder): scan left to right, replacing
each non-overlapping occurrence. -/
def replaceAll (pat rep s : List Char) : List Char :=
  replaceAllAux pat rep s.length s

theorem replaceAllAux_fuel_invariant (pat rep : List Char) :
    ∀ (f1 : Nat), ∀ (f2 : Nat) (s : List Char), s.length ≤ f1 →
      s.length ≤ f2 → replaceAllAux pat rep f1 s = replaceAllAux pat rep f2 s
  | 0, f2, s, h1, _ => by
    have hs : s = [] := List.length_eq_zero.1 (Nat.le_zero.1 h1)
    subst hs
    cases f2 with
    | zero => rfl
    | succ g => rfl
  | f1 + 1, f2, s, h1, h2 => by
    cases s with
    | nil =>
      cases f2 with
      | zero => rfl
      | succ g => rfl
    | cons c cs =>
      cases f2 with
      | zero => exact absurd h2 (by simp)
      | succ g =>
        simp only [replaceAllAux]
        have hc : cs.length ≤ f1 := by
          simp only [List.length_cons] at h1
          omega
        have hg : cs.length ≤ g := by
          simp only [List.length_cons] at h2
          omega
        have hd : (cs.drop (pat.length - 1)).length ≤ cs.length := by
          rw [List.length_drop]
          omega
        by_cases hp : pat.isPrefixOf (c :: cs) = true
        · rw [if_pos hp, if_pos hp,
            replaceAllAux_fuel_invariant pat rep f1 g
              (cs.drop (pat.length - 1)) (Nat.le_trans hd hc)
              (Nat.le_trans hd hg)]
        · rw [if_neg hp, if_neg hp,
            replaceAllAux_fuel_invariant pat rep f1 g cs hc hg]

theorem replaceAll_nil (pat rep : List Char) : replaceAll pat rep [] = [] :=
  rfl

theorem replaceAll_cons (pat rep : List Char) (c : Char) (cs : List Char) :
    replaceAll pat rep (c :: cs)
      = if pat.isPrefixOf (c :: cs) then
          rep ++ replaceAll pat rep (cs.drop (pat.length - 1))
        else
          c :: replaceAll pat rep cs := by
  show replaceAllAux pat rep (cs.length + 1) (c :: cs) = _
  simp only [replaceAllAux]
  have hd : (cs.drop (pat.length - 1)).length ≤ cs.length := by
    rw [List.length_drop]
    omega
  by_cases hp : pat.isPrefixOf (c :: cs) = true
  · rw [if_pos hp, if_pos hp,
      replaceAllAux_fuel_invariant pat rep cs.length
        (cs.drop (pat.length - 1)).length (cs.drop (pat.length - 1)) hd
        (Nat.le_refl _)]
    rfl
  · rw [if_neg hp, if_neg hp]
    rfl

/-- Whether `pat` occurs as a contiguous substring of `s`. -/
def containsSub (pat : List Char) : List Char → Bool
  | [] => pat.isPrefixOf ([] : List Char)
  | c :: cs => pat.isPrefixOf (c :: cs) || containsSub pat cs

/-- Python `s.replace(pat, rep)` at `String` level. -/
def pyReplace (pat rep s : String) : String := ⟨replaceAll pat.data rep.data s.data⟩

/-- The literal placeholder replaced in every SQL body
(`'[MY_PROJECT_ID].[MY_DATASET_ID]'` in the source). -/
def placeholder : String := "[MY_PROJECT_ID].[MY_DATASET_ID]"

/-- Model of `args.domain_name.lower().split('/')[-1]` (line 92 of the source):
lowercase the domain name, split on `'/'`, take the last segment. -/
def datasetName (domain_name : String) : String :=
  ⟨(pySplit '/' (pyLower domain_name).data).getLastD []⟩

/-- Model of `str(f.stem.lower()).split('_', 2)[-1]` (part of line 111 of the source):
lowercase the file stem, split on `'_'` with maxsplit 2, take the last piece. -/
def derivedSuffix (stem : String) : String :=
  ⟨(pySplitMax '_' 2 (pyLower stem).data).getLastD []⟩

/-- Model of `csa_file_name = dataset_name + '.' + str(f.stem.lower()).split('_', 2)[-1]`
(line 111 of the source). -/
def csaFileName (dataset_name stem : String) : String :=
  dataset_name ++ "." ++ derivedSuffix stem

/-- The `ForeColor` terminal-color constants used in error messages. -/
def ForeColor.RED : String := "\x1b[31m"

/-- The `ForeColor.RESET` terminal-color constant. -/
def ForeColor.RESET : String := "\x1b[39m"

/-- Outcome of the external process started by `subprocess.run`: its return
code and its captured output streams, already decoded as text. -/
structure CmdResult where
  returncode : Int
  stdout : String
  stderr : String
deriving DecidableEq, Repr

/-- Model of `run_command` (lines 60-85 of the source): raise when the process exited
non-zero, carrying the colored captured stderr; otherwise return the decoded
stdout. Exceptions are modeled by `Except String`. -/
def run_command (r : CmdResult) : Except String String :=
  if r.returncode ≠ 0 then
    Except.error (ForeColor.RED ++ r.stderr ++ ForeColor.RESET)
  else
    Except.ok r.stdout

/-- The four command-line arguments of the tool. -/
structure Args where
  grizzly_repo_path : String
  domain_name : String
  source_dataset : String
  schedule_interval : String
deriving DecidableEq, Repr

/-- One `.sql` file produced by
`(TEMP_DIR / 'backends' / 'bigquery' / 'sql').glob('**/*.sql')`; only its
filename stem and its text are consumed by `main`. -/
structure SrcFile where
  stem : String
  body : String
deriving DecidableEq, Repr

/-- The per-script descriptor mapping written to `<csa_file_name>.yml`
(lines 120-124 of the source); it has exactly these three fields. -/
structure Descriptor where
  target_table_name : String
  job_write_mode : String
  stage_loading_query : String
deriving DecidableEq, Repr

/-- The scope manifest written to `SCOPE.yml` (lines 97-101 and 129). -/
structure Scope where
  schedule_interval : String
  execution_timeout_per_table : Nat
  etl_scope : List String
deriving DecidableEq, Repr

/-- Content of a written file: plain text (`write_text` of SQL), or the
`yaml.safe_dump` of a descriptor or of the scope manifest, kept structured. -/
inductive FileData where
  | text : String → FileData
  | descYaml : Descriptor → FileData
  | scopeYaml : Scope → FileData
deriving DecidableEq, Repr

/-- A filesystem: the set of existing directories and an association list of
files, most recent write first (`write_text` overwrites). -/
structure Fs where
  dirs : List String
  files : List (String × FileData)
deriving DecidableEq, Repr

/-- Model of `Path.exists()` for a directory. -/
def Fs.dirExists (fs : Fs) (d : String) : Bool := fs.dirs.contains d

/-- Model of `Path.mkdir(exist_ok=True)`: no error when the directory exists. -/
def Fs.mkdir (fs : Fs) (d : String) : Fs := { fs with dirs := d :: fs.dirs }

/-- Model of `Path.write_text`: overwrites any previous content at the path. -/
def Fs.write (fs : Fs) (p : String) (c : FileData) : Fs :=
  { fs with files := (p, c) :: fs.files }

/-- Read the current content at a path, `none` when no such file exists. -/
def Fs.read (fs : Fs) (p : String) : Option FileData :=
  (fs.files.find? (fun e => e.1 == p)).map (fun e => e.2)

/-- Whether `p` lies strictly below directory `root` (paths joined with `'/'`). -/
def pathIsUnder (root p : String) : Bool :=
  (root ++ "/").data.isPrefixOf p.data

/-- Model of `pathlib.Path(a, b)` for a relative second component. -/
def pathJoin (a b : String) : String := a ++ "/" ++ b

/-- Model of `shutil.rmtree(root)`: raises (`FileNotFoundError`) when `root` does not
exist, otherwise removes the directory and everything below it. -/
def rmtree (fs : Fs) (root : String) : Except String Fs :=
  if fs.dirExists root then
    Except.ok
      { dirs := fs.dirs.filter (fun d => !(d == root || pathIsUnder root d)),
        files := fs.files.filter (fun e => !pathIsUnder root e.1) }
  else
    Except.error "FileNotFoundError"

/-- Lines 104-108 of the source: remove the target domain directory when it
exists (`if grizzly_path.exists(): shutil.rmtree(grizzly_path)`), then create
it and its `queries` subdirectory with `mkdir(exist_ok=True)`. -/
def domainReset (fs : Fs) (grizzly_path : String) : Except String Fs := do
  let fs1 ←
    if fs.dirExists grizzly_path then rmtree fs grizzly_path else pure fs
  let fs2 := fs1.mkdir grizzly_path
  pure (fs2.mkdir (pathJoin grizzly_path "queries"))

/-- Path of the rewritten SQL body: `grizzly_path/queries/<name>.sql`. -/
def sqlPath (grizzly_path name : String) : String :=
  pathJoin (pathJoin grizzly_path "queries") (name ++ ".sql")

/-- Path of the descriptor: `grizzly_path/<name>.yml`. -/
def ymlPath (grizzly_path name : String) : String :=
  pathJoin grizzly_path (name ++ ".yml")

/-- Path of the scope manifest: `grizzly_path/SCOPE.yml`. -/
def scopePath (grizzly_path : String) : String :=
  pathJoin grizzly_path "SCOPE.yml"

/-- Model of `str(sql_file.relative_to(grizzly_path))`: strip the root directory and
the joining `'/'` from the front of the path. -/
def relativeTo (root p : String) : String := ⟨p.data.drop (root.length + 1)⟩

/-- The descriptor dict built for one script (lines 120-124):
`target_table_name` is the derived name, `job_write_mode` the literal
`'WRITE_TRUNCATE'`, `stage_loading_query` the SQL path relative to the
domain root. -/
def descriptorOf (grizzly_path name : String) : Descriptor :=
  { target_table_name := name,
    job_write_mode := "WRITE_TRUNCATE",
    stage_loading_query := relativeTo grizzly_path (sqlPath grizzly_path name) }

/-- Model of `f.read_text().replace('[MY_PROJECT_ID].[MY_DATASET_ID]', args.source_dataset)`
(lines 118-119). -/
def transformSql (source_dataset body : String) : String :=
  pyReplace placeholder source_dataset body

/-- One iteration of the `for f in ...glob('**/*.sql')` loop (lines 110-127):
derive the name, write the descriptor YAML, write the rewritten SQL body, and
append the descriptor base name (`yml_file.stem`, which equals
`csa_file_name` since the name always contains a dot) to `etl_scope`. -/
def processOne (dataset_name source_dataset grizzly_path : String)
    (acc : Fs × List String) (f : SrcFile) : Fs × List String :=
  let name := csaFileName dataset_name f.stem
  let fs1 := acc.1.write (ymlPath grizzly_path name)
    (FileData.descYaml (descriptorOf grizzly_path name))
  let fs2 := fs1.write (sqlPath grizzly_path name)
    (FileData.text (transformSql source_dataset f.body))
  (fs2, acc.2 ++ [name])

/-- Model of `main` (lines 88-131), as a function of the arguments, the outcome of the
clone command, the list of `.sql` files found below
`backends/bigquery/sql` of the clone in filesystem traversal order, and the
starting filesystem. The clone command writes only into the fresh `TEMP_DIR`,
so it does not change `fs`. Returns the final filesystem together with
`some` error message when an exception escaped (the filesystem component then
reflects every write performed before the exception). -/
def mainRun (args : Args) (cloneRes : CmdResult) (files : List SrcFile)
    (fs : Fs) : Fs × Option String :=
  let grizzly_path := pathJoin args.grizzly_repo_path args.domain_name
  let dataset_name := datasetName args.domain_name
  match run_command cloneRes with
  | Except.error e => (fs, some e)
  | Except.ok _ =>
    match domainReset fs grizzly_path with
    | Except.error e => (fs, some e)
    | Except.ok fs1 =>
      let r := files.foldl
        (processOne dataset_name args.source_dataset grizzly_path) (fs1, [])
      let scope : Scope :=
        { schedule_interval := args.schedule_interval,
          execution_timeout_per_table := 1200,
          etl_scope := r.2 }
      (r.1.write (scopePath grizzly_path) (FileData.scopeYaml scope), none)

/-- The last `sep`-delimited segment of a string, as the spec phrases it
(`s.split(sep)[-1]`). -/
def lastSegment (sep : Char) (s : String) : String :=
  ⟨(pySplit sep s.data).getLastD []⟩

theorem toNat_char_ofNat {n : Nat} (h : n.isValidChar) :
    (Char.ofNat n).toNat = n := by
  rw [Char.ofNat, dif_pos h]
  rfl

theorem toLower_eq_iff {d : Char}
    (hd : d.toNat < 65 ∨ 90 < d.toNat ∧ d.toNat < 97 ∨ 122 < d.toNat)
    (c : Char) : c.toLower = d ↔ c = d := by
  show (if c.toNat ≥ 65 ∧ c.toNat ≤ 90 then Char.ofNat (c.toNat + 32) else c)
      = d ↔ c = d
  by_cases h : c.toNat ≥ 65 ∧ c.toNat ≤ 90
  · rw [if_pos h]
    constructor
    · intro he
      exfalso
      have hv : Nat.isValidChar (c.toNat + 32) := Or.inl (by omega)
      have ht := toNat_char_ofNat hv
      rw [he] at ht
      omega
    · intro he
      exfalso
      subst he
      omega
  · rw [if_neg h]

theorem toLower_slash (c : Char) : c.toLower = '/' ↔ c = '/' :=
  toLower_eq_iff (by decide) c

theorem toLower_underscore (c : Char) : c.toLower = '_' ↔ c = '_' :=
  toLower_eq_iff (by decide) c

theorem pyLowerL_append (a b : List Char) :
    pyLowerL (a ++ b) = pyLowerL a ++ pyLowerL b :=
  List.map_append _ a b

theorem not_mem_pyLowerL {sep : Char} (hsep : ∀ c, c.toLower = sep ↔ c = sep)
    {s : List Char} (h : sep ∉ s) : sep ∉ pyLowerL s := by
  intro hm
  obtain ⟨c, hc, heq⟩ := List.mem_map.1 hm
  exact h (((hsep c).1 heq) ▸ hc)

theorem splitFirst_eq_none {sep : Char} {s : List Char} (h : sep ∉ s) :
    splitFirst sep s = none := by
  induction s with
  | nil => rfl
  | cons c cs ih =>
    have hc : ¬c = sep :=
      fun hceq => h (by rw [← hceq]; exact List.mem_cons_self c cs)
    have hcs : sep ∉ cs := fun hm => h (List.mem_cons_of_mem c hm)
    simp only [splitFirst, if_neg hc, ih hcs, Option.map_none']

theorem splitFirst_append {sep : Char} {a b : List Char} (h : sep ∉ a) :
    splitFirst sep (a ++ sep :: b) = some (a, b) := by
  induction a with
  | nil => simp [splitFirst]
  | cons c cs ih =>
    have hc : ¬c = sep :=
      fun hceq => h (by rw [← hceq]; exact List.mem_cons_self c cs)
    have hcs : sep ∉ cs := fun hm => h (List.mem_cons_of_mem c hm)
    simp only [List.cons_append, splitFirst, if_neg hc, List.append_eq,
      ih hcs, Option.map_some']

theorem pySplitMax_no_sep {sep : Char} {s : List Char} (n : Nat)
    (h : sep ∉ s) : pySplitMax sep n s = [s] := by
  cases n with
  | zero => rfl
  | succ m =>
    simp only [pySplitMax, splitFirst_eq_none h]

theorem pySplitMax_two_splits {sep : Char} {a b r : List Char}
    (ha : sep ∉ a) (hb : sep ∉ b) :
    pySplitMax sep 2 (a ++ sep :: (b ++ sep :: r)) = [a, b, r] := by
  simp only [pySplitMax, splitFirst_append ha, splitFirst_append hb]

theorem pySplitMax_one_split {sep : Char} {a b : List Char}
    (ha : sep ∉ a) (hb : sep ∉ b) :
    pySplitMax sep 2 (a ++ sep :: b) = [a, b] := by
  simp only [pySplitMax, splitFirst_append ha, splitFirst_eq_none hb]

theorem pySplit_ne_nil (sep : Char) (s : List Char) : pySplit sep s ≠ [] := by
  cases s with
  | nil => simp [pySplit]
  | cons c cs =>
    simp only [pySplit]
    split
    · simp
    · split
      · simp
      · simp

theorem pySplit_pyLowerL {sep : Char} (hsep : ∀ c, c.toLower = sep ↔ c = sep)
    (s : List Char) :
    pySplit sep (pyLowerL s) = (pySplit sep s).map pyLowerL := by
  induction s with
  | nil => rfl
  | cons c cs ih =>
    show pySplit sep (c.toLower :: pyLowerL cs) = _
    simp only [pySplit, ih]
    by_cases hc : c = sep
    · rw [if_pos ((hsep c).2 hc), if_pos hc]
      rfl
    · rw [if_neg (fun hl => hc ((hsep c).1 hl)), if_neg hc]
      cases hr : pySplit sep cs with
      | nil => exact absurd hr (pySplit_ne_nil sep cs)
      | cons h t => rfl

theorem datasetName_eq_lower_lastSegment (domain : String) :
    datasetName domain = pyLower (lastSegment '/' domain) := by
  apply String.ext
  show (pySplit '/' (pyLowerL domain.data)).getLastD [] = _
  rw [pySplit_pyLowerL toLower_slash]
  exact List.getLastD_map pyLowerL (pySplit '/' domain.data) []

theorem derivedSuffix_two_underscores {t0 t1 rest : String}
    (h0 : '_' ∉ t0.data) (h1 : '_' ∉ t1.data) :
    derivedSuffix (t0 ++ "_" ++ t1 ++ "_" ++ rest) = pyLower rest := by
  apply String.ext
  show (pySplitMax '_' 2
      (pyLowerL (t0 ++ "_" ++ t1 ++ "_" ++ rest).data)).getLastD [] = _
  have hdata : (t0 ++ "_" ++ t1 ++ "_" ++ rest).data
      = t0.data ++ '_' :: (t1.data ++ '_' :: rest.data) := by
    simp [String.data_append]
  rw [hdata]
  rw [show pyLowerL (t0.data ++ '_' :: (t1.data ++ '_' :: rest.data))
      = pyLowerL t0.data ++ '_' :: (pyLowerL t1.data ++ '_' :: pyLowerL rest.data) by
    simp [pyLowerL, (toLower_underscore '_').2 rfl]]
  rw [pySplitMax_two_splits (not_mem_pyLowerL toLower_underscore h0)
    (not_mem_pyLowerL toLower_underscore h1)]
  rfl

/-- C1: for a stem of shape `X_Y_Z` (at least two underscores, `X` and `Y`
underscore-free), the derived descriptor base name computed on line 111 of
the source equals `dataset_name ++ "." ++` the stem with its first two
underscore-delimited tokens dropped, lowercased, where `dataset_name` is the
last `'/'`-delimited segment of `domain_name`, lowercased. -/
theorem derived_name_drops_first_two_tokens (domain t0 t1 rest : String)
    (h0 : '_' ∉ t0.data) (h1 : '_' ∉ t1.data) :
    csaFileName (datasetName domain) (t0 ++ "_" ++ t1 ++ "_" ++ rest)
      = pyLower (lastSegment '/' domain) ++ "." ++ pyLower rest := by
  rw [csaFileName, datasetName_eq_lower_lastSegment,
    derivedSuffix_two_underscores h0 h1]

/-- Witness for C1 at `domain = "team/BAS_csa"`, stem `"csa_4_01_summary"`:
the derived name is `"bas_csa.01_summary"`. -/
theorem derived_name_drops_first_two_tokens_witness :
    csaFileName (datasetName "team/BAS_csa") ("csa" ++ "_" ++ "4" ++ "_" ++ "01_summary")
      = pyLower (lastSegment '/' "team/BAS_csa") ++ "." ++ pyLower "01_summary" :=
  derived_name_drops_first_two_tokens "team/BAS_csa" "csa" "4" "01_summary"
    (by decide) (by decide)

/-- C9: the derived-name computation is total on stems with fewer than two
underscores and drops only the tokens present: with exactly one underscore
only the first token is removed, and with no underscore the whole lowercased
stem becomes the derived suffix. -/
theorem derived_name_fewer_underscores (dataset t0 t1 t : String)
    (h0 : '_' ∉ t0.data) (h1 : '_' ∉ t1.data) (h : '_' ∉ t.data) :
    csaFileName dataset (t0 ++ "_" ++ t1) = dataset ++ "." ++ pyLower t1
      ∧ csaFileName dataset t = dataset ++ "." ++ pyLower t := by
  constructor
  · have : derivedSuffix (t0 ++ "_" ++ t1) = pyLower t1 := by
      apply String.ext
      show (pySplitMax '_' 2 (pyLowerL (t0 ++ "_" ++ t1).data)).getLastD [] = _
      have hdata : (t0 ++ "_" ++ t1).data = t0.data ++ '_' :: t1.data := by
        simp [String.data_append]
      rw [hdata]
      rw [show pyLowerL (t0.data ++ '_' :: t1.data)
          = pyLowerL t0.data ++ '_' :: pyLowerL t1.data by
        simp [pyLowerL, (toLower_underscore '_').2 rfl]]
      rw [pySplitMax_one_split (not_mem_pyLowerL toLower_underscore h0)
        (not_mem_pyLowerL toLower_underscore h1)]
      rfl
    rw [csaFileName, this]
  · have : derivedSuffix t = pyLower t := by
      apply String.ext
      show (pySplitMax '_' 2 (pyLowerL t.data)).getLastD [] = _
      rw [pySplitMax_no_sep 2 (not_mem_pyLowerL toLower_underscore h)]
      rfl
    rw [csaFileName, this]

/-- Witness for C9 at stems `"one_shot"` and `"plain"`. -/
theorem derived_name_fewer_underscores_witness :
    csaFileName "ds" ("one" ++ "_" ++ "shot") = "ds" ++ "." ++ pyLower "shot"
      ∧ csaFileName "ds" "plain" = "ds" ++ "." ++ pyLower "plain" :=
  derived_name_fewer_underscores "ds" "one" "shot" "plain"
    (by decide) (by decide) (by decide)

theorem replaceAll_not_contains {pat rep s : List Char}
    (h : containsSub pat s = false) : replaceAll pat rep s = s := by
  induction s with
  | nil => rfl
  | cons c cs ih =>
    have hsplit : pat.isPrefixOf (c :: cs) = false
        ∧ containsSub pat cs = false := by
      have := h
      simp only [containsSub, Bool.or_eq_false_iff] at this
      exact this
    rw [replaceAll_cons, if_neg (by simp [hsplit.1]), ih hsplit.2]

theorem replaceAll_leftmost {pat rep : List Char} (hne : pat ≠ [])
    (a b : List Char)
    (ha : ∀ i, i < a.length →
      (pat.isPrefixOf ((a ++ (pat ++ b)).drop i)) = false) :
    replaceAll pat rep (a ++ (pat ++ b))
      = a ++ (rep ++ replaceAll pat rep b) := by
  induction a with
  | nil =>
    cases hp : pat with
    | nil => exact absurd hp hne
    | cons p0 pr =>
      subst hp
      simp only [List.nil_append, List.cons_append]
      have hpre : (p0 :: pr).isPrefixOf (p0 :: (pr ++ b)) = true := by
        simp [ List.isPrefixOf_iff_prefix]
      rw [replaceAll_cons, if_pos hpre]
      have hdrop : (pr ++ b).drop ((p0 :: pr).length - 1) = b := by
        simp only [List.length_cons, Nat.add_sub_cancel]
        exact List.drop_left pr b
      rw [hdrop]
  | cons c a' ih =>
    have h0 := ha 0 (by simp)
    simp only [List.drop_zero, List.cons_append] at h0
    simp only [List.cons_append]
    rw [replaceAll_cons, if_neg (by simp only [h0]; exact Bool.false_ne_true)]
    rw [ih (fun i hi => by
      have hstep := ha (i + 1) (by simpa using Nat.succ_lt_succ hi)
      simpa using hstep)]

/-- C3: the SQL rewrite on lines 118-119 is plain literal substring
replacement of `'[MY_PROJECT_ID].[MY_DATASET_ID]'` by `source_dataset`:
it equals `pyReplace` of the placeholder; a body without the placeholder
passes through unchanged; and the leftmost occurrence is replaced with
scanning resuming after it (so all occurrences are replaced left to
right). -/
theorem transform_is_literal_replacement :
    (∀ sd body : String, transformSql sd body = pyReplace placeholder sd body)
      ∧ (∀ sd body : String,
          containsSub placeholder.data body.data = false →
          transformSql sd body = body)
      ∧ ∀ (rep a b : List Char),
          (∀ i, i < a.length →
            (placeholder.data.isPrefixOf
              ((a ++ (placeholder.data ++ b)).drop i)) = false) →
          replaceAll placeholder.data rep (a ++ (placeholder.data ++ b))
            = a ++ (rep ++ replaceAll placeholder.data rep b) := by
  refine ⟨fun sd body => rfl, fun sd body h => ?_, fun rep a b ha => ?_⟩
  · apply String.ext
    exact replaceAll_not_contains h
  · exact replaceAll_leftmost (by decide) a b ha

/-- Witness for C3: a body without the placeholder is unchanged, and a body
consisting of the placeholder between two pieces of text has it replaced. -/
theorem transform_is_literal_replacement_witness :
    (containsSub placeholder.data ("SELECT 1").data = false
      ∧ transformSql "proj.ds" "SELECT 1" = "SELECT 1")
      ∧ replaceAll placeholder.data ("proj.ds").data
          (("FROM ").data ++ (placeholder.data ++ (".events").data))
        = ("FROM ").data ++ (("proj.ds").data
            ++ replaceAll placeholder.data ("proj.ds").data (".events").data) :=
  ⟨⟨by decide, transform_is_literal_replacement.2.1 "proj.ds" "SELECT 1"
      (by decide)⟩,
    transform_is_literal_replacement.2.2 ("proj.ds").data ("FROM ").data
      (".events").data (by decide)⟩

/-- C7: `run_command` fails exactly when the invoked process exits non-zero;
the raised error carries the captured stderr text (wrapped in the RED/RESET
color codes), and on a zero exit it returns the captured stdout text. -/
theorem run_command_failure_iff (r : CmdResult) :
    ((∃ e, run_command r = Except.error e) ↔ r.returncode ≠ 0)
      ∧ (r.returncode ≠ 0 →
          run_command r
              = Except.error (ForeColor.RED ++ r.stderr ++ ForeColor.RESET)
            ∧ r.stderr.data
              <:+: (ForeColor.RED ++ r.stderr ++ ForeColor.RESET).data)
      ∧ (r.returncode = 0 → run_command r = Except.ok r.stdout) := by
  refine ⟨⟨?_, ?_⟩, fun h => ⟨?_, ?_⟩, fun h => ?_⟩
  · rintro ⟨e, he⟩ h0
    rw [run_command, if_neg (fun hc => hc h0)] at he
    exact Except.noConfusion he
  · intro h
    exact ⟨_, by rw [run_command, if_pos h]⟩
  · rw [run_command, if_pos h]
  · exact ⟨ForeColor.RED.data, ForeColor.RESET.data, by simp⟩
  · rw [run_command, if_neg (fun hc => hc h)]

/-- Witness for C7 at a failing process (`returncode = 1`, stderr `"boom"`)
and a succeeding one (`returncode = 0`, stdout `"out"`). -/
theorem run_command_failure_iff_witness :
    ((1 : Int) ≠ 0
      ∧ run_command ⟨1, "out", "boom"⟩
          = Except.error (ForeColor.RED ++ "boom" ++ ForeColor.RESET))
      ∧ run_command ⟨0, "out", "boom"⟩ = Except.ok "out" :=
  ⟨⟨by decide,
      ((run_command_failure_iff ⟨1, "out", "boom"⟩).2.1 (by decide)).1⟩,
    (run_command_failure_iff ⟨0, "out", "boom"⟩).2.2 rfl⟩

/-- C6: the domain-reset step (lines 104-108) never raises — removal of the
target directory is guarded by its existence — and afterwards the target
directory and its `queries` subdirectory exist while no file that lay below
the target directory before survives. The hypothesis `hwf` states the
filesystem coherence fact that files below a directory only exist when the
directory does. -/
theorem domain_reset_clears (fs : Fs) (gp : String)
    (hwf : ∀ e ∈ fs.files, pathIsUnder gp e.1 = true →
      fs.dirExists gp = true) :
    ∃ fs', domainReset fs gp = Except.ok fs'
      ∧ (∀ p, pathIsUnder gp p = true → fs'.read p = none)
      ∧ fs'.dirExists gp = true
      ∧ fs'.dirExists (pathJoin gp "queries") = true := by
  by_cases h : fs.dirExists gp = true
  · refine ⟨((Fs.mkdir
      { dirs := fs.dirs.filter (fun d => !(d == gp || pathIsUnder gp d)),
        files := fs.files.filter (fun e => !pathIsUnder gp e.1) } gp).mkdir
          (pathJoin gp "queries")), ?_, ?_, ?_, ?_⟩
    · simp only [domainReset, rmtree, if_pos h]
      rfl
    · intro p hp
      simp only [Fs.read, Fs.mkdir, Option.map_eq_none', List.find?_eq_none]
      intro e he
      have hmem := List.of_mem_filter he
      simp only [Bool.not_eq_true'] at hmem
      intro heq
      rw [beq_iff_eq] at heq
      rw [heq] at hmem
      rw [hp] at hmem
      exact Bool.noConfusion hmem
    · simp [Fs.dirExists, Fs.mkdir, List.contains_cons]
    · simp [Fs.dirExists, Fs.mkdir, List.contains_cons]
  · refine ⟨((Fs.mkdir fs gp).mkdir (pathJoin gp "queries")), ?_, ?_, ?_, ?_⟩
    · simp only [domainReset, if_neg h]
      rfl
    · intro p hp
      simp only [Fs.read, Fs.mkdir, Option.map_eq_none', List.find?_eq_none]
      intro e he heq
      rw [beq_iff_eq] at heq
      exact h (hwf e he (by rw [heq]; exact hp))
    · simp [Fs.dirExists, Fs.mkdir, List.contains_cons]
    · simp [Fs.dirExists, Fs.mkdir, List.contains_cons]

/-- Witness for C6: a filesystem whose domain directory `"g/d"` holds a stale
file; after the reset the stale file is gone and both directories exist. -/
theorem domain_reset_clears_witness :
    ∃ fs', domainReset ⟨["g/d"], [("g/d/stale.yml", FileData.text "old")]⟩
        "g/d" = Except.ok fs'
      ∧ fs'.read "g/d/stale.yml" = none
      ∧ fs'.dirExists "g/d" = true
      ∧ fs'.dirExists (pathJoin "g/d" "queries") = true := by
  obtain ⟨fs', h1, h2, h3, h4⟩ := domain_reset_clears
    ⟨["g/d"], [("g/d/stale.yml", FileData.text "old")]⟩ "g/d"
    (by intro e he hu; decide)
  exact ⟨fs', h1, h2 "g/d/stale.yml" (by decide), h3, h4⟩

theorem tag_of_append_yml (x : List Char) :
    ((x ++ ['.', 'y', 'm', 'l']).reverse.drop 1).head? = some 'm' := by
  rw [List.reverse_append]
  rfl

theorem tag_of_append_sql (x : List Char) :
    ((x ++ ['.', 's', 'q', 'l']).reverse.drop 1).head? = some 'q' := by
  rw [List.reverse_append]
  rfl

theorem ymlPath_data (gp n : String) :
    (ymlPath gp n).data = ((gp.data ++ ("/").data) ++ n.data) ++ (".yml").data := by
  simp [ymlPath, pathJoin, String.data_append]

theorem sqlPath_data (gp n : String) :
    (sqlPath gp n).data
      = ((((gp.data ++ ("/").data) ++ ("queries").data) ++ ("/").data)
          ++ n.data) ++ (".sql").data := by
  simp [sqlPath, pathJoin, String.data_append]

theorem scopePath_data (gp : String) :
    (scopePath gp).data = ((gp.data ++ ("/").data) ++ ("SCOPE").data) ++ (".yml").data := by
  simp only [scopePath, pathJoin, String.data_append, List.append_assoc]
  rfl

theorem ymlPath_ne_sqlPath (gp n m : String) : ymlPath gp n ≠ sqlPath gp m := by
  intro h
  have hd := congrArg String.data h
  rw [ymlPath_data, sqlPath_data] at hd
  have htag := congrArg (fun l => (List.reverse l |>.drop 1).head?) hd
  simp only [tag_of_append_yml, tag_of_append_sql] at htag
  exact absurd (Option.some.inj htag) (by decide)

theorem scopePath_ne_sqlPath (gp m : String) : scopePath gp ≠ sqlPath gp m := by
  intro h
  have hd := congrArg String.data h
  rw [scopePath_data, sqlPath_data] at hd
  have htag := congrArg (fun l => (List.reverse l |>.drop 1).head?) hd
  simp only [tag_of_append_yml, tag_of_append_sql] at htag
  exact absurd (Option.some.inj htag) (by decide)

theorem sqlPath_inj {gp n m : String} (h : sqlPath gp n = sqlPath gp m) :
    n = m := by
  have hd := congrArg String.data h
  rw [sqlPath_data, sqlPath_data] at hd
  have h1 := (List.append_inj' hd rfl).1
  simp only [List.append_assoc, List.append_cancel_left_eq] at h1
  exact String.ext h1

theorem pathIsUnder_sqlPath (gp n : String) :
    pathIsUnder gp (sqlPath gp n) = true := by
  simp only [pathIsUnder, sqlPath_data, String.data_append,
    List.isPrefixOf_iff_prefix, List.append_assoc]
  rw [← List.append_assoc]
  exact List.prefix_append _ _

theorem pathIsUnder_scopePath (gp : String) :
    pathIsUnder gp (scopePath gp) = true := by
  simp only [pathIsUnder, scopePath_data, String.data_append,
    List.isPrefixOf_iff_prefix, List.append_assoc]
  rw [← List.append_assoc]
  exact List.prefix_append _ _

/-- The yml and sql writes performed by the `for` loop, in program order. -/
def allWrites (dataset_name source_dataset grizzly_path : String)
    (files : List SrcFile) : List (String × FileData) :=
  files.flatMap (fun f =>
    [(ymlPath grizzly_path (csaFileName dataset_name f.stem),
        FileData.descYaml
          (descriptorOf grizzly_path (csaFileName dataset_name f.stem))),
      (sqlPath grizzly_path (csaFileName dataset_name f.stem),
        FileData.text (transformSql source_dataset f.body))])

theorem foldl_processOne (dn sd gp : String) (files : List SrcFile)
    (fs : Fs) (ns : List String) :
    files.foldl (processOne dn sd gp) (fs, ns)
      = (⟨fs.dirs, (allWrites dn sd gp files).reverse ++ fs.files⟩,
          ns ++ files.map (fun f => csaFileName dn f.stem)) := by
  induction files generalizing fs ns with
  | nil => simp [allWrites]
  | cons f rest ih =>
    rw [List.foldl_cons, processOne, ih]
    simp only [allWrites, List.flatMap_cons, List.reverse_append,
      List.map_cons, Fs.write]
    simp [List.append_assoc]

theorem find?_eq_head?_filter (p : α → Bool) (l : List α) :
    l.find? p = (l.filter p).head? := by
  induction l with
  | nil => rfl
  | cons a t ih =>
    by_cases h : p a = true
    · rw [List.find?_cons_of_pos t h, List.filter_cons_of_pos h]
      rfl
    · rw [List.find?_cons_of_neg t (by simp [h]),
        List.filter_cons_of_neg (by simp [h]), ih]

theorem find?_reverse_eq_getLast?_filter (p : α → Bool) (l : List α) :
    l.reverse.find? p = (l.filter p).getLast? := by
  rw [find?_eq_head?_filter, List.filter_reverse, List.head?_reverse]

theorem filter_allWrites_sql (dn sd gp name : String) (files : List SrcFile) :
    (allWrites dn sd gp files).filter (fun e => e.1 == sqlPath gp name)
      = (files.filter (fun f => csaFileName dn f.stem == name)).map
          (fun f => (sqlPath gp name,
            FileData.text (transformSql sd f.body))) := by
  induction files with
  | nil => rfl
  | cons f rest ih =>
    simp only [allWrites, List.flatMap_cons] at ih ⊢
    rw [List.cons_append, List.cons_append, List.nil_append]
    rw [List.filter_cons_of_neg
      (by simp [beq_eq_false_iff_ne, ymlPath_ne_sqlPath])]
    by_cases h : csaFileName dn f.stem = name
    · rw [List.filter_cons_of_pos (by simp [h]),
        List.filter_cons_of_pos (by simp [h]), ih, List.map_cons, h]
    · rw [List.filter_cons_of_neg
        (by show ¬((sqlPath gp (csaFileName dn f.stem)
              == sqlPath gp name) = true)
            rw [beq_iff_eq]
            exact fun hc => h (sqlPath_inj hc)),
        List.filter_cons_of_neg (by simp [h]), ih]

theorem mainRun_ok_decomp (args : Args) (cres : CmdResult)
    (files : List SrcFile) (fs0 : Fs) (h0 : cres.returncode = 0)
    (hwf : ∀ e ∈ fs0.files,
      pathIsUnder (pathJoin args.grizzly_repo_path args.domain_name) e.1 = true →
      fs0.dirExists (pathJoin args.grizzly_repo_path args.domain_name) = true) :
    ∃ (dirs0 : List String) (rest : List (String × FileData)),
      (∀ e ∈ rest,
        pathIsUnder (pathJoin args.grizzly_repo_path args.domain_name) e.1
          = false)
      ∧ mainRun args cres files fs0
        = (⟨dirs0,
            (scopePath (pathJoin args.grizzly_repo_path args.domain_name),
              FileData.scopeYaml
                { schedule_interval := args.schedule_interval,
                  execution_timeout_per_table := 1200,
                  etl_scope := files.map (fun f =>
                    csaFileName (datasetName args.domain_name) f.stem) })
              :: ((allWrites (datasetName args.domain_name)
                    args.source_dataset
                    (pathJoin args.grizzly_repo_path args.domain_name)
                    files).reverse
                  ++ rest)⟩, none) := by
  have hrc : run_command cres = Except.ok cres.stdout := by
    rw [run_command, if_neg (fun hc => hc h0)]
  by_cases h : fs0.dirExists (pathJoin args.grizzly_repo_path args.domain_name)
      = true
  · have hreset : domainReset fs0
        (pathJoin args.grizzly_repo_path args.domain_name)
        = Except.ok (Fs.mkdir (Fs.mkdir
            ⟨fs0.dirs.filter (fun d =>
              !(d == pathJoin args.grizzly_repo_path args.domain_name
                || pathIsUnder
                    (pathJoin args.grizzly_repo_path args.domain_name) d)),
              fs0.files.filter (fun e =>
                !pathIsUnder
                  (pathJoin args.grizzly_repo_path args.domain_name) e.1)⟩
            (pathJoin args.grizzly_repo_path args.domain_name))
            (pathJoin (pathJoin args.grizzly_repo_path args.domain_name)
              "queries")) := by
      simp only [domainReset, rmtree, if_pos h]
      rfl
    refine ⟨pathJoin (pathJoin args.grizzly_repo_path args.domain_name)
        "queries"
        :: pathJoin args.grizzly_repo_path args.domain_name
        :: fs0.dirs.filter (fun d =>
          !(d == pathJoin args.grizzly_repo_path args.domain_name
            || pathIsUnder (pathJoin args.grizzly_repo_path args.domain_name)
                d)),
      fs0.files.filter (fun e =>
        !pathIsUnder (pathJoin args.grizzly_repo_path args.domain_name) e.1),
      ?_, ?_⟩
    · intro e he
      have hm := List.of_mem_filter he
      simpa using hm
    · simp only [mainRun, hrc, hreset]
      rw [foldl_processOne]
      rfl
  · have hreset : domainReset fs0
        (pathJoin args.grizzly_repo_path args.domain_name)
        = Except.ok (Fs.mkdir
            (Fs.mkdir fs0 (pathJoin args.grizzly_repo_path args.domain_name))
            (pathJoin (pathJoin args.grizzly_repo_path args.domain_name)
              "queries")) := by
      simp only [domainReset, if_neg h]
      rfl
    refine ⟨pathJoin (pathJoin args.grizzly_repo_path args.domain_name)
        "queries"
        :: pathJoin args.grizzly_repo_path args.domain_name :: fs0.dirs,
      fs0.files, ?_, ?_⟩
    · intro e he
      cases hu : pathIsUnder (pathJoin args.grizzly_repo_path args.domain_name)
          e.1 with
      | false => rfl
      | true => exact absurd (hwf e he hu) h
    · simp only [mainRun, hrc, hreset]
      rw [foldl_processOne]
      rfl

/-- C4: on a successful run, `SCOPE.yml` holds an `etl_scope` with exactly
one entry per `.sql` file of the clone's `backends/bigquery/sql` tree (the
`files` list, in traversal order), each entry the file's derived base name;
duplicates are kept (the count of a name equals the number of files deriving
it), and the SQL file finally stored under a derived name is the transformed
body of the *last* traversed file deriving that name (later files overwrite
earlier ones). -/
theorem etl_scope_one_entry_per_file (args : Args) (cres : CmdResult)
    (files : List SrcFile) (fs0 : Fs) (h0 : cres.returncode = 0)
    (hwf : ∀ e ∈ fs0.files,
      pathIsUnder (pathJoin args.grizzly_repo_path args.domain_name) e.1
          = true →
      fs0.dirExists (pathJoin args.grizzly_repo_path args.domain_name)
          = true) :
    (mainRun args cres files fs0).2 = none
    ∧ (mainRun args cres files fs0).1.read
        (scopePath (pathJoin args.grizzly_repo_path args.domain_name))
      = some (FileData.scopeYaml
          { schedule_interval := args.schedule_interval,
            execution_timeout_per_table := 1200,
            etl_scope := files.map (fun f =>
              csaFileName (datasetName args.domain_name) f.stem) })
    ∧ (∀ name : String,
        (files.map (fun f =>
          csaFileName (datasetName args.domain_name) f.stem)).count name
          = (files.filter (fun f =>
              csaFileName (datasetName args.domain_name) f.stem
                == name)).length)
    ∧ ∀ name : String,
        (mainRun args cres files fs0).1.read
            (sqlPath (pathJoin args.grizzly_repo_path args.domain_name) name)
          = ((files.filter (fun f =>
                csaFileName (datasetName args.domain_name) f.stem
                  == name)).getLast?).map
              (fun f => FileData.text
                (transformSql args.source_dataset f.body)) := by
  obtain ⟨dirs0, rest, hrest, heq⟩ :=
    mainRun_ok_decomp args cres files fs0 h0 hwf
  rw [heq]
  refine ⟨rfl, ?_, ?_, ?_⟩
  · simp only [Fs.read]
    rw [List.find?_cons_of_pos _ (by simp)]
    rfl
  · intro name
    rw [List.count_eq_countP, List.countP_map, List.countP_eq_length_filter]
    rfl
  · intro name
    simp only [Fs.read]
    rw [List.find?_cons_of_neg _
      (by show ¬((scopePath (pathJoin args.grizzly_repo_path args.domain_name)
            == sqlPath (pathJoin args.grizzly_repo_path args.domain_name)
                name) = true)
          rw [beq_iff_eq]
          exact scopePath_ne_sqlPath _ name)]
    rw [List.find?_append, find?_reverse_eq_getLast?_filter,
      filter_allWrites_sql]
    have hrestnone : rest.find? (fun e =>
        e.1 == sqlPath (pathJoin args.grizzly_repo_path args.domain_name)
          name) = none := by
      rw [List.find?_eq_none]
      intro x hx
      simp only [beq_iff_eq]
      intro hxeq
      have hfalse := hrest x hx
      rw [hxeq, pathIsUnder_sqlPath] at hfalse
      exact Bool.noConfusion hfalse
    rw [hrestnone, Option.or_none, List.getLast?_map, Option.map_map]
    rfl

/-- Witness for C4: two source files with stems `csa_a_dup` and `csa_b_dup`
both derive `ds.dup`; `etl_scope` lists the name twice and the stored SQL is
the second file's body. -/
theorem etl_scope_one_entry_per_file_witness :
    (mainRun ⟨"g", "ds", "proj.ds", "@daily"⟩ ⟨0, "", ""⟩
        [⟨"csa_a_dup", "B1"⟩, ⟨"csa_b_dup", "B2"⟩] ⟨[], []⟩).1.read
        (scopePath (pathJoin "g" "ds"))
      = some (FileData.scopeYaml
          { schedule_interval := "@daily",
            execution_timeout_per_table := 1200,
            etl_scope := ["ds.dup", "ds.dup"] })
    ∧ (mainRun ⟨"g", "ds", "proj.ds", "@daily"⟩ ⟨0, "", ""⟩
        [⟨"csa_a_dup", "B1"⟩, ⟨"csa_b_dup", "B2"⟩] ⟨[], []⟩).1.read
        (sqlPath (pathJoin "g" "ds") "ds.dup")
      = some (FileData.text "B2") := by
  obtain ⟨h1, h2, h3, h4⟩ := etl_scope_one_entry_per_file
    ⟨"g", "ds", "proj.ds", "@daily"⟩ ⟨0, "", ""⟩
    [⟨"csa_a_dup", "B1"⟩, ⟨"csa_b_dup", "B2"⟩] ⟨[], []⟩ rfl
    (by intro e he hu; cases he)
  constructor
  · rw [h2]
    decide
  · rw [h4 "ds.dup"]
    decide

/-- C8: for a successful clone, the produced domain contents (every path
below the domain directory) are a function of the arguments and the cloned
files alone — two runs from arbitrary starting filesystems agree on every
path below the domain root, so re-running on an unchanged clone reproduces
identical domain contents. -/
theorem rerun_reproduces_domain (args : Args) (cres : CmdResult)
    (files : List SrcFile) (fs0 fs0' : Fs) (h0 : cres.returncode = 0)
    (hwf : ∀ e ∈ fs0.files,
      pathIsUnder (pathJoin args.grizzly_repo_path args.domain_name) e.1
          = true →
      fs0.dirExists (pathJoin args.grizzly_repo_path args.domain_name)
          = true)
    (hwf' : ∀ e ∈ fs0'.files,
      pathIsUnder (pathJoin args.grizzly_repo_path args.domain_name) e.1
          = true →
      fs0'.dirExists (pathJoin args.grizzly_repo_path args.domain_name)
          = true) :
    (mainRun args cres files fs0).2 = none
    ∧ (mainRun args cres files fs0').2 = none
    ∧ ∀ p : String,
        pathIsUnder (pathJoin args.grizzly_repo_path args.domain_name) p
          = true →
        (mainRun args cres files fs0).1.read p
          = (mainRun args cres files fs0').1.read p := by
  obtain ⟨d1, r1, hr1, he1⟩ := mainRun_ok_decomp args cres files fs0 h0 hwf
  obtain ⟨d2, r2, hr2, he2⟩ := mainRun_ok_decomp args cres files fs0' h0 hwf'
  rw [he1, he2]
  refine ⟨rfl, rfl, ?_⟩
  intro p hp
  have hnone : ∀ (r : List (String × FileData)),
      (∀ e ∈ r, pathIsUnder (pathJoin args.grizzly_repo_path
        args.domain_name) e.1 = false) →
      r.find? (fun e => e.1 == p) = none := by
    intro r hr
    rw [List.find?_eq_none]
    intro x hx
    simp only [beq_iff_eq]
    intro hxeq
    have hfalse := hr x hx
    rw [hxeq, hp] at hfalse
    exact Bool.noConfusion hfalse
  simp only [Fs.read, ← List.cons_append, List.find?_append,
    hnone r1 hr1, hnone r2 hr2, Option.or_none]

/-- Witness for C8: the same run started from an empty filesystem and from a
filesystem already holding a stale domain file agree below the domain root. -/
theorem rerun_reproduces_domain_witness :
    (mainRun ⟨"g", "ds", "proj.ds", "@daily"⟩ ⟨0, "", ""⟩
        [⟨"csa_a_x", "B"⟩] ⟨[], []⟩).1.read (sqlPath (pathJoin "g" "ds") "ds.x")
      = (mainRun ⟨"g", "ds", "proj.ds", "@daily"⟩ ⟨0, "", ""⟩
        [⟨"csa_a_x", "B"⟩]
        ⟨["g/ds"], [("g/ds/stale.yml", FileData.text "old")]⟩).1.read
          (sqlPath (pathJoin "g" "ds") "ds.x") := by
  obtain ⟨h1, h2, h3⟩ := rerun_reproduces_domain
    ⟨"g", "ds", "proj.ds", "@daily"⟩ ⟨0, "", ""⟩ [⟨"csa_a_x", "B"⟩]
    ⟨[], []⟩ ⟨["g/ds"], [("g/ds/stale.yml", FileData.text "old")]⟩ rfl
    (by intro e he hu; cases he) (by decide)
  exact h3 (sqlPath (pathJoin "g" "ds") "ds.x") (pathIsUnder_sqlPath _ _)

/-- C10: the clone command is checked before the target domain directory is
touched: when the clone exits non-zero, `main` stops with the colored stderr
message and the filesystem — including any pre-existing domain directory —
is returned completely unchanged. -/
theorem clone_failure_leaves_state (args : Args) (cres : CmdResult)
    (files : List SrcFile) (fs0 : Fs) (h : cres.returncode ≠ 0) :
    mainRun args cres files fs0
      = (fs0, some (ForeColor.RED ++ cres.stderr ++ ForeColor.RESET)) := by
  have hrc : run_command cres
      = Except.error (ForeColor.RED ++ cres.stderr ++ ForeColor.RESET) := by
    rw [run_command, if_pos h]
  simp only [mainRun, hrc]

/-- Witness for C10: a failing clone over a filesystem with a pre-existing
domain file leaves that filesystem value untouched. -/
theorem clone_failure_leaves_state_witness :
    mainRun ⟨"g", "ds", "proj.ds", "@daily"⟩ ⟨128, "", "fatal"⟩ []
        ⟨["g/ds"], [("g/ds/old.yml", FileData.text "keep")]⟩
      = (⟨["g/ds"], [("g/ds/old.yml", FileData.text "keep")]⟩,
          some (ForeColor.RED ++ "fatal" ++ ForeColor.RESET)) :=
  clone_failure_leaves_state ⟨"g", "ds", "proj.ds", "@daily"⟩
    ⟨128, "", "fatal"⟩ []
    ⟨["g/ds"], [("g/ds/old.yml", FileData.text "keep")]⟩ (by decide)

theorem string_data_length (s : String) : s.data.length = s.length := rfl

theorem relativeTo_sqlPath (gp n : String) :
    relativeTo gp (sqlPath gp n) = "queries/" ++ (n ++ ".sql") := by
  apply String.ext
  show (sqlPath gp n).data.drop (gp.length + 1)
      = ("queries/" ++ (n ++ ".sql")).data
  rw [sqlPath_data]
  simp only [List.append_assoc]
  rw [← List.append_assoc gp.data]
  rw [List.drop_left' (by rw [List.length_append, string_data_length]; rfl)]
  rw [← List.append_assoc (("queries").data)]
  simp only [String.data_append]
  congr 1

/-- C5: the per-script descriptor built on lines 120-124 has exactly the
three fields of `Descriptor`: `target_table_name` is the derived base name,
`job_write_mode` is the literal `"WRITE_TRUNCATE"`, and
`stage_loading_query` is the SQL file's path relative to the domain root,
`queries/<derived name>.sql`. -/
theorem descriptor_has_fixed_fields (gp dn : String) (f : SrcFile) :
    descriptorOf gp (csaFileName dn f.stem)
      = { target_table_name := csaFileName dn f.stem,
          job_write_mode := "WRITE_TRUNCATE",
          stage_loading_query :=
            "queries/" ++ (csaFileName dn f.stem ++ ".sql") } := by
  rw [descriptorOf, relativeTo_sqlPath]

/-- C2 counterexample: in the spec's scenario (stem `csa_failed_logins`,
`domain_name "team/bas_csa"`), the derived base name is **not** the claimed
`bas_csa.failed_logins` — `split('_', 2)[-1]` drops the first two tokens
`csa` and `failed`, leaving `logins`. -/
theorem scenario_claimed_name_refuted :
    csaFileName (datasetName "team/bas_csa") "csa_failed_logins"
      ≠ "bas_csa.failed_logins" := by
  decide

/-- C2 (amended): in the scenario with source file `csa_failed_logins.sql`
containing `SELECT * FROM [MY_PROJECT_ID].[MY_DATASET_ID].events`,
`domain_name "team/bas_csa"` and `source_dataset "proj.ds"`, the run
produces `dataset_name` `bas_csa`, derived base name `bas_csa.logins`,
output SQL `SELECT * FROM proj.ds.events`, and a descriptor with
`target_table_name bas_csa.logins`, `job_write_mode WRITE_TRUNCATE` and
`stage_loading_query queries/bas_csa.logins.sql`. -/
theorem scenario_run_amended :
    datasetName "team/bas_csa" = "bas_csa"
    ∧ csaFileName (datasetName "team/bas_csa") "csa_failed_logins"
        = "bas_csa.logins"
    ∧ transformSql "proj.ds"
        "SELECT * FROM [MY_PROJECT_ID].[MY_DATASET_ID].events"
        = "SELECT * FROM proj.ds.events"
    ∧ (mainRun ⟨"g", "team/bas_csa", "proj.ds", "@daily"⟩ ⟨0, "", ""⟩
        [⟨"csa_failed_logins",
          "SELECT * FROM [MY_PROJECT_ID].[MY_DATASET_ID].events"⟩]
        ⟨[], []⟩).1.read
          (ymlPath (pathJoin "g" "team/bas_csa") "bas_csa.logins")
      = some (FileData.descYaml
          { target_table_name := "bas_csa.logins",
            job_write_mode := "WRITE_TRUNCATE",
            stage_loading_query := "queries/bas_csa.logins.sql" })
    ∧ (mainRun ⟨"g", "team/bas_csa", "proj.ds", "@daily"⟩ ⟨0, "", ""⟩
        [⟨"csa_failed_logins",
          "SELECT * FROM [MY_PROJECT_ID].[MY_DATASET_ID].events"⟩]
        ⟨[], []⟩).1.read
          (sqlPath (pathJoin "g" "team/bas_csa") "bas_csa.logins")
      = some (FileData.text "SELECT * FROM proj.ds.events")
    ∧ (mainRun ⟨"g", "team/bas_csa", "proj.ds", "@daily"⟩ ⟨0, "", ""⟩
        [⟨"csa_failed_logins",
          "SELECT * FROM [MY_PROJECT_ID].[MY_DATASET_ID].events"⟩]
        ⟨[], []⟩).2 = none := by
  decide

end CsaToGrizzly
